import Mathlib

/-!
Verification of the Vendor Identity Resolution & Transaction Normalization
pipeline of `app/services/database_service.py`.

The Python code is shallowly embedded: strings are Lean strings (lists of
characters), Python `set` values over strings are represented canonically as
sorted duplicate-free lists, numeric scores are exact rationals, the external
OpenAI call is a parameter (a `Judge` function producing either a text response
or an error), and every Python function that can raise an exception is Option-
or error-valued.  ASCII caveat: Python's `\w`, `str.lower`, `str.isalnum` are
Unicode-aware; the embedding models their behaviour on the ASCII range
(`Char.isAlphanum`, `Char.toLower`), which is where every vendor-name decision
in the source is made.
-/

/-! ## Basic character and word helpers -/

/-- A `\w` word character of the Python regex `[^\w\s]` used in
`VendorMatcher.normalize_vendor_name`: alphanumeric or underscore. -/
def isWordChar (c : Char) : Bool := c.isAlphanum || c = '_'

/-- Python `str.strip()` on a list of characters: drop whitespace from both
ends. -/
def pyStrip (l : List Char) : List Char :=
  ((l.dropWhile Char.isWhitespace).reverse.dropWhile Char.isWhitespace).reverse

/-- Helper for `wordsOf`: split on whitespace, accumulating the current word
in reverse in `acc`. -/
def wordsAux (acc : List Char) : List Char → List (List Char)
  | [] => if acc.isEmpty then [] else [acc.reverse]
  | c :: cs =>
    if c.isWhitespace then
      if acc.isEmpty then wordsAux [] cs else acc.reverse :: wordsAux [] cs
    else wordsAux (c :: acc) cs

/-- Python `str.split()` with no separator: maximal runs of non-whitespace
characters, no empty words. -/
def wordsOf (l : List Char) : List (List Char) := wordsAux [] l

/-- Python `' '.join(...)` on words given as character lists. -/
def joinWords : List (List Char) → List Char
  | [] => []
  | [w] => w
  | w :: ws => w ++ ' ' :: joinWords ws

/-- Python `str.split()` at the `String` level. -/
def pySplitWords (s : String) : List String := (wordsOf s.toList).map String.mk

/-! ## A computable total order on strings (Python code-point ordering) -/

/-- Lexicographic comparison of character lists by code point, as Python
`sorted` orders strings. -/
def lexLe : List Char → List Char → Bool
  | [], _ => true
  | _ :: _, [] => false
  | a :: as, b :: bs =>
    if a.toNat < b.toNat then true
    else if b.toNat < a.toNat then false
    else lexLe as bs

/-- The order on `String` induced by `lexLe`. -/
def strLe (s t : String) : Prop := lexLe s.toList t.toList = true

instance : DecidableRel strLe := fun _ _ => inferInstanceAs (Decidable (_ = true))

theorem char_toNat_inj {a b : Char} (h : a.toNat = b.toNat) : a = b :=
  Char.eq_of_val_eq (UInt32.toNat.inj h)

theorem lexLe_total (a b : List Char) : lexLe a b = true ∨ lexLe b a = true := by
  induction a generalizing b with
  | nil => left; rfl
  | cons x xs ih =>
    cases b with
    | nil => right; rfl
    | cons y ys =>
      by_cases h1 : x.toNat < y.toNat
      · left; simp [lexLe, h1]
      · by_cases h2 : y.toNat < x.toNat
        · right; simp [lexLe, h1, h2]
        · have hxy : x = y := char_toNat_inj (by omega)
          subst hxy
          rcases ih ys with h | h
          · left; simp [lexLe, h1, h2, h]
          · right; simp [lexLe, h1, h2, h]

theorem lexLe_cons (a b : Char) (as bs : List Char) :
    lexLe (a :: as) (b :: bs) =
      if a.toNat < b.toNat then true
      else if b.toNat < a.toNat then false
      else lexLe as bs := rfl

theorem lexLe_antisymm {a b : List Char} (h1 : lexLe a b = true)
    (h2 : lexLe b a = true) : a = b := by
  induction a generalizing b with
  | nil =>
    cases b with
    | nil => rfl
    | cons y ys => simp [lexLe] at h2
  | cons x xs ih =>
    cases b with
    | nil => simp [lexLe] at h1
    | cons y ys =>
      rw [lexLe_cons] at h1 h2
      by_cases hlt : x.toNat < y.toNat
      · rw [if_neg (by omega : ¬ y.toNat < x.toNat), if_pos hlt] at h2
        exact absurd h2 (by simp)
      · by_cases hgt : y.toNat < x.toNat
        · rw [if_neg hlt, if_pos hgt] at h1
          exact absurd h1 (by simp)
        · have hxy : x = y := char_toNat_inj (by omega)
          subst hxy
          rw [if_neg hlt, if_neg hlt] at h1 h2
          rw [ih h1 h2]

theorem lexLe_trans {a b c : List Char} (h1 : lexLe a b = true)
    (h2 : lexLe b c = true) : lexLe a c = true := by
  induction a generalizing b c with
  | nil => rfl
  | cons x xs ih =>
    cases b with
    | nil => simp [lexLe] at h1
    | cons y ys =>
      cases c with
      | nil => simp [lexLe] at h2
      | cons z zs =>
        rw [lexLe_cons] at h1 h2 ⊢
        by_cases hyx : y.toNat < x.toNat
        · rw [if_neg (by omega : ¬ x.toNat < y.toNat), if_pos hyx] at h1
          exact absurd h1 (by simp)
        · by_cases hzy : z.toNat < y.toNat
          · rw [if_neg (by omega : ¬ y.toNat < z.toNat), if_pos hzy] at h2
            exact absurd h2 (by simp)
          · by_cases hxz : x.toNat < z.toNat
            · rw [if_pos hxz]
            · have hxy : ¬ x.toNat < y.toNat := by omega
              have hyz : ¬ y.toNat < z.toNat := by omega
              have hzx : ¬ z.toNat < x.toNat := by omega
              rw [if_neg hxy, if_neg hyx] at h1
              rw [if_neg hyz, if_neg hzy] at h2
              rw [if_neg hxz, if_neg hzx]
              exact ih h1 h2

instance : IsTotal String strLe := ⟨fun s t => lexLe_total s.toList t.toList⟩

instance : IsAntisymm String strLe := by
  constructor
  intro s t h1 h2
  have h : s.toList = t.toList := lexLe_antisymm h1 h2
  cases s
  cases t
  simp only [String.toList] at h
  rw [h]

instance : IsTrans String strLe := ⟨fun _ _ _ h1 h2 => lexLe_trans h1 h2⟩

/-- Canonical representation of a Python `set` of strings: sorted (by code
points) and duplicate-free.  `set(xs)` is modelled by `pySet xs`. -/
def pySet (l : List String) : List String := List.insertionSort strLe l.dedup

theorem pySet_sorted (l : List String) : (pySet l).Sorted strLe :=
  List.sorted_insertionSort strLe l.dedup

theorem pySet_nodup (l : List String) : (pySet l).Nodup :=
  ((List.perm_insertionSort strLe l.dedup).nodup_iff).mpr l.nodup_dedup

theorem mem_pySet {x : String} {l : List String} : x ∈ pySet l ↔ x ∈ l := by
  unfold pySet
  rw [(List.perm_insertionSort strLe l.dedup).mem_iff, List.mem_dedup]

/-- Two canonical set representations with the same members are equal. -/
theorem canon_eq {A B : List String} (sA : A.Sorted strLe) (sB : B.Sorted strLe)
    (nA : A.Nodup) (nB : B.Nodup) (h : ∀ x, x ∈ A ↔ x ∈ B) : A = B :=
  List.eq_of_perm_of_sorted ((List.perm_ext_iff_of_nodup nA nB).mpr h) sA sB

/-! ## Name Normalizer — `VendorMatcher.normalize_vendor_name` -/

/-- Stop words removed by `normalize_vendor_name` (source line 31). -/
def stop_words : List String :=
  ["the", "and", "or", "ltd", "limited", "inc", "incorporated"]

/-- `VendorMatcher.normalize_vendor_name` (source lines 25-34):
lower-case, strip, delete every character that is neither a word character
nor whitespace (`re.sub(r'[^\w\s]', '', ...)`), split on whitespace, drop
stop words, re-join with single spaces.  The `lru_cache` memoization is a
pure-function cache and is not part of the observable behaviour. -/
def normalizeWords (vendor : String) : List (List Char) :=
  (wordsOf ((pyStrip (vendor.toList.map Char.toLower)).filter
      (fun c => isWordChar c || c.isWhitespace))).filter
    (fun w => !(stop_words.contains (String.mk w)))

/-- See `normalizeWords` for the splitting/filtering stage; this re-joins the
kept words with single spaces, completing `normalize_vendor_name`. -/
def normalize_vendor_name (vendor : String) : String :=
  String.mk (joinWords (normalizeWords vendor))


/-! ## Structural lemmas about the word splitter and joiner -/

theorem char_toNat_ofNat_valid (n : Nat) (h : n.isValidChar) :
    (Char.ofNat n).toNat = n := by
  rw [Char.ofNat, dif_pos h]
  rfl

theorem char_toLower_idem (c : Char) : c.toLower.toLower = c.toLower := by
  unfold Char.toLower
  by_cases h : c.toNat ≥ 65 ∧ c.toNat ≤ 90
  · rw [if_pos h]
    have hv : (c.toNat + 32).isValidChar := by
      unfold Nat.isValidChar
      omega
    rw [char_toNat_ofNat_valid (c.toNat + 32) hv]
    rw [if_neg]
    omega
  · rw [if_neg h, if_neg h]

theorem wordsAux_good : ∀ (l acc : List Char),
    (∀ c ∈ acc, c.isWhitespace = false) →
    ∀ w ∈ wordsAux acc l,
      w ≠ [] ∧ ∀ c ∈ w, (c ∈ acc ∨ c ∈ l) ∧ c.isWhitespace = false := by
  intro l
  induction l with
  | nil =>
    intro acc hacc w hw
    unfold wordsAux at hw
    by_cases he : acc.isEmpty
    · rw [if_pos he] at hw
      simp at hw
    · rw [if_neg he] at hw
      simp only [List.mem_singleton] at hw
      subst hw
      refine ⟨?_, fun c hc => ?_⟩
      · simp only [ne_eq, List.reverse_eq_nil_iff]
        exact List.isEmpty_eq_false.mp (Bool.not_eq_true _ ▸ eq_false_of_ne_true he)
      · rw [List.mem_reverse] at hc
        exact ⟨Or.inl hc, hacc c hc⟩
  | cons x xs ih =>
    intro acc hacc w hw
    unfold wordsAux at hw
    by_cases hx : x.isWhitespace
    · rw [if_pos hx] at hw
      have fromTail : w ∈ wordsAux [] xs →
          w ≠ [] ∧ ∀ c ∈ w, (c ∈ acc ∨ c ∈ x :: xs) ∧ c.isWhitespace = false := by
        intro hmem
        have h2 := ih [] (by simp) w hmem
        refine ⟨h2.1, fun c hc => ⟨?_, (h2.2 c hc).2⟩⟩
        rcases (h2.2 c hc).1 with h3 | h3
        · simp at h3
        · exact Or.inr (List.mem_cons_of_mem _ h3)
      by_cases he : acc.isEmpty
      · rw [if_pos he] at hw
        exact fromTail hw
      · rw [if_neg he] at hw
        rcases List.mem_cons.mp hw with hw1 | hw2
        · subst hw1
          refine ⟨?_, fun c hc => ?_⟩
          · simp only [ne_eq, List.reverse_eq_nil_iff]
            exact List.isEmpty_eq_false.mp (eq_false_of_ne_true he)
          · rw [List.mem_reverse] at hc
            exact ⟨Or.inl hc, hacc c hc⟩
        · exact fromTail hw2
    · rw [if_neg hx] at hw
      have hx2 : x.isWhitespace = false := eq_false_of_ne_true hx
      have h2 := ih (x :: acc) (by
        intro c hc
        rcases List.mem_cons.mp hc with rfl | h3
        · exact hx2
        · exact hacc c h3) w hw
      refine ⟨h2.1, fun c hc => ⟨?_, (h2.2 c hc).2⟩⟩
      rcases (h2.2 c hc).1 with h3 | h3
      · rcases List.mem_cons.mp h3 with rfl | h4
        · exact Or.inr (List.mem_cons_self _ _)
        · exact Or.inl h4
      · exact Or.inr (List.mem_cons_of_mem _ h3)

theorem wordsOf_good {l : List Char} :
    ∀ w ∈ wordsOf l, w ≠ [] ∧ ∀ c ∈ w, c ∈ l ∧ c.isWhitespace = false := by
  intro w hw
  have h := wordsAux_good l [] (by simp) w hw
  refine ⟨h.1, fun c hc => ⟨?_, (h.2 c hc).2⟩⟩
  rcases (h.2 c hc).1 with h2 | h2
  · simp at h2
  · exact h2

theorem wordsAux_cons (acc : List Char) (c : Char) (cs : List Char) :
    wordsAux acc (c :: cs) =
      if c.isWhitespace then
        if acc.isEmpty then wordsAux [] cs else acc.reverse :: wordsAux [] cs
      else wordsAux (c :: acc) cs := rfl

theorem wordsAux_append_word :
    ∀ (w : List Char), (∀ c ∈ w, c.isWhitespace = false) →
    ∀ (acc l : List Char), wordsAux acc (w ++ l) = wordsAux (w.reverse ++ acc) l := by
  intro w
  induction w with
  | nil => intro _ acc l; simp
  | cons c cs ih =>
    intro h acc l
    have hc : c.isWhitespace = false := h c (List.mem_cons_self _ _)
    rw [List.cons_append, wordsAux_cons, if_neg (by simp [hc])]
    rw [ih (fun d hd => h d (List.mem_cons_of_mem _ hd)) (c :: acc) l]
    rw [List.reverse_cons, List.append_assoc, List.singleton_append]

theorem wordsAux_space (acc l : List Char) :
    wordsAux acc (' ' :: l) =
      if acc.isEmpty then wordsAux [] l else acc.reverse :: wordsAux [] l := by
  rw [wordsAux_cons, if_pos (by decide : (' ' : Char).isWhitespace = true)]

theorem joinWords_cons_cons (w x : List Char) (xs : List (List Char)) :
    joinWords (w :: x :: xs) = w ++ ' ' :: joinWords (x :: xs) := rfl

theorem joinWords_ne_nil {ws : List (List Char)} (h : ws ≠ [])
    (hh : ∀ w ∈ ws, w ≠ []) : joinWords ws ≠ [] := by
  cases ws with
  | nil => exact absurd rfl h
  | cons w ws2 =>
    cases ws2 with
    | nil => exact hh w (List.mem_cons_self _ _)
    | cons x xs =>
      rw [joinWords_cons_cons]
      simp

theorem wordsOf_joinWords :
    ∀ (ws : List (List Char)),
    (∀ w ∈ ws, w ≠ [] ∧ ∀ c ∈ w, c.isWhitespace = false) →
    wordsOf (joinWords ws) = ws := by
  intro ws
  induction ws with
  | nil => intro _; rfl
  | cons w ws2 ih =>
    intro h
    have hw := h w (List.mem_cons_self _ _)
    have hwrev : w.reverse.isEmpty = false := by
      simp only [List.isEmpty_eq_false, ne_eq, List.reverse_eq_nil_iff]
      exact hw.1
    cases ws2 with
    | nil =>
      show wordsAux [] (joinWords [w]) = [w]
      have hjw : joinWords [w] = w ++ [] := by simp [joinWords]
      rw [hjw, wordsAux_append_word w hw.2 [] [], List.append_nil]
      show (if w.reverse.isEmpty then [] else [w.reverse.reverse]) = [w]
      rw [if_neg (by simp [hwrev]), List.reverse_reverse]
    | cons x xs =>
      show wordsAux [] (joinWords (w :: x :: xs)) = w :: x :: xs
      rw [joinWords_cons_cons, wordsAux_append_word w hw.2 [] _, List.append_nil,
        wordsAux_space]
      rw [if_neg (by simp [hwrev]), List.reverse_reverse]
      have := ih (fun w2 hw2 => h w2 (List.mem_cons_of_mem _ hw2))
      rw [show wordsAux [] (joinWords (x :: xs)) = wordsOf (joinWords (x :: xs)) from rfl,
        this]

theorem mem_joinWords {c : Char} :
    ∀ {ws : List (List Char)}, c ∈ joinWords ws → c = ' ' ∨ ∃ w ∈ ws, c ∈ w := by
  intro ws
  induction ws with
  | nil => intro h; simp [joinWords] at h
  | cons w ws2 ih =>
    cases ws2 with
    | nil =>
      intro h
      exact Or.inr ⟨w, List.mem_cons_self _ _, h⟩
    | cons x xs =>
      intro h
      rw [joinWords_cons_cons] at h
      rcases List.mem_append.mp h with h1 | h2
      · exact Or.inr ⟨w, List.mem_cons_self _ _, h1⟩
      · rcases List.mem_cons.mp h2 with rfl | h3
        · exact Or.inl rfl
        · rcases ih h3 with h4 | ⟨w2, hw2, hc⟩
          · exact Or.inl h4
          · exact Or.inr ⟨w2, List.mem_cons_of_mem _ hw2, hc⟩

theorem dropWhile_eq_self_of_head? {p : Char → Bool} {l : List Char}
    (h : ∀ c, l.head? = some c → p c = false) : l.dropWhile p = l := by
  cases l with
  | nil => rfl
  | cons a as =>
    rw [List.dropWhile_cons, if_neg]
    simp [h a rfl]

theorem head?_joinWords_not_ws {ws : List (List Char)}
    (h : ∀ w ∈ ws, w ≠ [] ∧ ∀ c ∈ w, c.isWhitespace = false) :
    ∀ c, (joinWords ws).head? = some c → c.isWhitespace = false := by
  cases ws with
  | nil => intro c hc; simp [joinWords] at hc
  | cons w ws2 =>
    have hw := h w (List.mem_cons_self _ _)
    cases hwc : w with
    | nil => exact absurd hwc hw.1
    | cons a as =>
      subst hwc
      intro c hc
      have ha : (joinWords ((a :: as) :: ws2)).head? = some a := by
        cases ws2 with
        | nil => rfl
        | cons x xs => rw [joinWords_cons_cons]; rfl
      rw [ha] at hc
      have hca : c = a := by
        injection hc with h2
        exact h2.symm
      subst hca
      exact hw.2 c (List.mem_cons_self _ _)

theorem getLast?_joinWords_not_ws :
    ∀ {ws : List (List Char)},
    (∀ w ∈ ws, w ≠ [] ∧ ∀ c ∈ w, c.isWhitespace = false) →
    ∀ c, (joinWords ws).getLast? = some c → c.isWhitespace = false := by
  intro ws
  induction ws with
  | nil => intro _ c hc; simp [joinWords] at hc
  | cons w ws2 ih =>
    intro h c hc
    cases ws2 with
    | nil =>
      exact (h w (List.mem_cons_self _ _)).2 c (List.mem_of_getLast?_eq_some hc)
    | cons x xs =>
      have htail := fun w2 hw2 => h w2 (List.mem_cons_of_mem _ hw2)
      have hJ : joinWords (x :: xs) ≠ [] :=
        joinWords_ne_nil (by simp) (fun w2 hw2 => (htail w2 hw2).1)
      rcases List.eq_nil_or_concat (joinWords (x :: xs)) with hnil | ⟨L, b, hL⟩
      · exact absurd hnil hJ
      · rw [List.concat_eq_append] at hL
        rw [joinWords_cons_cons, hL,
          show w ++ ' ' :: (L ++ [b]) = (w ++ ' ' :: L) ++ [b] by simp,
          List.getLast?_concat] at hc
        have hbc : b = c := by injection hc
        subst hbc
        exact ih htail b (by rw [hL, List.getLast?_concat])

theorem pyStrip_eq_self {l : List Char}
    (hh : ∀ c, l.head? = some c → c.isWhitespace = false)
    (hl : ∀ c, l.getLast? = some c → c.isWhitespace = false) :
    pyStrip l = l := by
  unfold pyStrip
  rw [dropWhile_eq_self_of_head? hh]
  rw [dropWhile_eq_self_of_head?
    (fun c hc => hl c (by rwa [List.head?_reverse] at hc))]
  exact List.reverse_reverse l

theorem mem_pyStrip {c : Char} {l : List Char} (h : c ∈ pyStrip l) : c ∈ l := by
  unfold pyStrip at h
  rw [List.mem_reverse] at h
  have h2 := (List.dropWhile_sublist Char.isWhitespace).mem h
  rw [List.mem_reverse] at h2
  exact (List.dropWhile_sublist Char.isWhitespace).mem h2

/-- Normalizing a string that is already a space-join of clean words (non-empty,
whitespace-free, word-character-only, lower-case-fixed, non-stop-words) returns
it unchanged. -/
theorem normalize_of_clean (ws : List (List Char))
    (h : ∀ w ∈ ws, w ≠ [] ∧ ∀ c ∈ w,
      c.isWhitespace = false ∧ isWordChar c = true ∧ c.toLower = c)
    (hstop : ∀ w ∈ ws, stop_words.contains (String.mk w) = false) :
    normalize_vendor_name (String.mk (joinWords ws)) = String.mk (joinWords ws) := by
  have hgw : ∀ w ∈ ws, w ≠ [] ∧ ∀ c ∈ w, c.isWhitespace = false :=
    fun w hw => ⟨(h w hw).1, fun c hc => ((h w hw).2 c hc).1⟩
  unfold normalize_vendor_name normalizeWords
  have h0 : (String.mk (joinWords ws)).toList = joinWords ws := rfl
  rw [h0]
  have h1 : (joinWords ws).map Char.toLower = joinWords ws := by
    have := List.map_congr_left (f := Char.toLower) (g := id)
      (l := joinWords ws) (fun c hc => by
        rcases mem_joinWords hc with rfl | ⟨w, hw, hcw⟩
        · decide
        · exact ((h w hw).2 c hcw).2.2)
    rwa [List.map_id] at this
  rw [h1]
  have h2 : pyStrip (joinWords ws) = joinWords ws :=
    pyStrip_eq_self (head?_joinWords_not_ws hgw) (getLast?_joinWords_not_ws hgw)
  rw [h2]
  have h3 : (joinWords ws).filter (fun c => isWordChar c || c.isWhitespace) =
      joinWords ws := by
    rw [List.filter_eq_self]
    intro c hc
    rcases mem_joinWords hc with rfl | ⟨w, hw, hcw⟩
    · decide
    · simp [((h w hw).2 c hcw).2.1]
  rw [h3]
  rw [wordsOf_joinWords ws hgw]
  have h4 : ws.filter (fun w => !(stop_words.contains (String.mk w))) = ws := by
    rw [List.filter_eq_self]
    intro w hw
    show (!(stop_words.contains (String.mk w))) = true
    rw [hstop w hw]
    rfl
  rw [h4]

/-- C5: `normalize_vendor_name` is idempotent: normalizing a normalized vendor
name yields it back unchanged, for every input string. -/
theorem normalize_vendor_name_idem (s : String) :
    normalize_vendor_name (normalize_vendor_name s) = normalize_vendor_name s := by
  show normalize_vendor_name (String.mk (joinWords (normalizeWords s))) =
    String.mk (joinWords (normalizeWords s))
  apply normalize_of_clean
  · intro w hw
    have hmemWords : w ∈ wordsOf ((pyStrip (s.toList.map Char.toLower)).filter
        (fun c => isWordChar c || c.isWhitespace)) := List.mem_of_mem_filter hw
    have hgood := wordsOf_good w hmemWords
    refine ⟨hgood.1, fun c hc => ?_⟩
    have hcClean := (hgood.2 c hc).1
    have hcNotWs := (hgood.2 c hc).2
    have hcStrip : c ∈ pyStrip (s.toList.map Char.toLower) :=
      List.mem_of_mem_filter hcClean
    have hcPred : (isWordChar c || c.isWhitespace) = true := by
      have := List.of_mem_filter (p := fun c => isWordChar c || c.isWhitespace) hcClean
      simpa using this
    have hcWord : isWordChar c = true := by
      rcases Bool.or_eq_true_iff.mp hcPred with h5 | h5
      · exact h5
      · rw [h5] at hcNotWs
        exact absurd hcNotWs (by simp)
    have hcLower : c.toLower = c := by
      have hcMap : c ∈ s.toList.map Char.toLower := mem_pyStrip hcStrip
      rcases List.mem_map.mp hcMap with ⟨c0, _, hc0⟩
      rw [← hc0]
      exact char_toLower_idem c0
    exact ⟨hcNotWs, hcWord, hcLower⟩
  · intro w hw
    have := List.of_mem_filter
      (p := fun w => !(stop_words.contains (String.mk w))) hw
    simpa using this

/-! ## Similarity Scorer — `VendorMatcher.calculate_similarity_score`

The source computes `fuzz.token_set_ratio` from the `thefuzz` library (a
wrapper over `rapidfuzz`): both strings are pre-processed (non-alphanumeric
characters replaced by spaces, lower-cased, trimmed, non-ASCII dropped), split
into token sets, and compared through the indel (insert/delete) edit distance
of the sorted joined intersection/differences, with the final similarity
rounded to an integer.  The library functions are modelled here faithfully;
fuel-based recursion is used for the longest-common-subsequence kernel so that
every definition evaluates inside the kernel. -/

/-- Longest common subsequence length with an explicit fuel argument (the fuel
`l1.length + l2.length` always suffices). -/
def lcsFuel : Nat → List Char → List Char → Nat
  | 0, _, _ => 0
  | _, [], _ => 0
  | _, _ :: _, [] => 0
  | fuel + 1, a :: as, b :: bs =>
    if a = b then lcsFuel fuel as bs + 1
    else max (lcsFuel fuel as (b :: bs)) (lcsFuel fuel (a :: as) bs)

/-- Longest common subsequence length of two character lists. -/
def lcsLen (l1 l2 : List Char) : Nat := lcsFuel (l1.length + l2.length) l1 l2

/-- Indel distance (Levenshtein restricted to insertions and deletions):
`len1 + len2 - 2 * lcs`. -/
def indelDist (l1 l2 : List Char) : Nat :=
  l1.length + l2.length - 2 * lcsLen l1 l2

/-- `rapidfuzz` normalized similarity from a distance and the length sum:
`100 * (1 - dist / lensum)`, and `100` when the length sum is zero. -/
def normSim (dist lensum : Nat) : ℚ :=
  if lensum = 0 then 100 else 100 - 100 * (dist : ℚ) / (lensum : ℚ)

/-- Python `round` on an exact rational: round half to even. -/
def pyRound (q : ℚ) : ℤ :=
  if q - ⌊q⌋ < 1 / 2 then ⌊q⌋
  else if 1 / 2 < q - ⌊q⌋ then ⌊q⌋ + 1
  else if ⌊q⌋ % 2 = 0 then ⌊q⌋ else ⌊q⌋ + 1

/-- Space-join a list of tokens into one character list. -/
def joinTokens (ws : List String) : List Char := joinWords (ws.map String.toList)

/-- The generic branch of `token_set_ratio` once the joined intersection and
difference strings are formed. -/
def tsrMain (sectJ dabJ dbaJ : List Char) : ℚ :=
  let sectLen := sectJ.length
  let adj := if sectLen = 0 then 0 else 1
  let sectAbLen := sectLen + adj + dabJ.length
  let sectBaLen := sectLen + adj + dbaJ.length
  let result := normSim (indelDist dabJ dbaJ) (sectAbLen + sectBaLen)
  if sectLen = 0 then result
  else
    max result (max (normSim (1 + dabJ.length) (sectLen + sectAbLen))
      (normSim (1 + dbaJ.length) (sectLen + sectBaLen)))

/-- Core of `rapidfuzz`'s `token_set_ratio` on the two (sorted, deduplicated)
token sets: the maximum of the indel similarity between the joined sorted
differences and of the two intersection-versus-whole similarities, with the
usual special cases (an empty token set gives 0; a non-empty intersection with
one empty difference gives 100). -/
def tsrCore (ta tb : List String) : ℚ :=
  if ta = [] ∨ tb = [] then 0
  else
    let inter := ta.filter (fun w => decide (w ∈ tb))
    let dab := ta.filter (fun w => !(decide (w ∈ tb)))
    let dba := tb.filter (fun w => !(decide (w ∈ ta)))
    if inter ≠ [] ∧ (dab = [] ∨ dba = []) then 100
    else
      let sectJ := joinTokens inter
      let dabJ := joinTokens dab
      let dbaJ := joinTokens dba
      tsrMain sectJ dabJ dbaJ

/-- `thefuzz` default pre-processing (`utils.full_process` with
`force_ascii=True`): drop non-ASCII characters, replace every non-alphanumeric
character by a space, lower-case, trim. -/
def fullProcess (s : String) : String :=
  String.mk (pyStrip ((s.toList.filter (fun c => c.toNat < 128)).map
    (fun c => if c.isAlphanum then c.toLower else ' ')))

/-- `fuzz.token_set_ratio(s1, s2)` as called on source line 47: pre-process
both strings, build token sets, run the token-set similarity, round to an
integer. -/
def fuzzTokenSet (s1 s2 : String) : ℚ :=
  (pyRound (tsrCore (pySet (pySplitWords (fullProcess s1)))
    (pySet (pySplitWords (fullProcess s2)))) : ℤ)

/-- Generic store-type tokens stripped for the store-variation bonus (source
line 55). -/
def store_types : List String :=
  ["market", "hypermarket", "supermarket", "store", "shop", "mart"]

/-- `VendorMatcher.calculate_similarity_score` (source lines 36-76).  Both
names are normalized; the final score is
`0.40 * token_set_ratio + 0.40 * word_overlap + 0.20 * store_variation_bonus`.
The word-overlap term divides by `max(len(new_words), len(existing_words))`
with no guard, so when both normalized names have no words Python raises
`ZeroDivisionError`; the embedding returns `none` in exactly that case. -/
def calculate_similarity_score (new_vendor existing_vendor : String) : Option ℚ :=
  let norm_new := normalize_vendor_name new_vendor
  let norm_existing := normalize_vendor_name existing_vendor
  let new_words := pySet (pySplitWords norm_new)
  let existing_words := pySet (pySplitWords norm_existing)
  let tsr := fuzzTokenSet norm_new norm_existing
  let common_words := new_words.filter (fun w => decide (w ∈ existing_words))
  if max new_words.length existing_words.length = 0 then none
  else some (
    let word_overlap := (common_words.length : ℚ) /
      ((max new_words.length existing_words.length : Nat) : ℚ) * 100
    let new_no_type := new_words.filter (fun w => !(decide (w ∈ store_types)))
    let existing_no_type :=
      existing_words.filter (fun w => !(decide (w ∈ store_types)))
    tsr * (2 / 5) + word_overlap * (2 / 5) +
      (if new_no_type = existing_no_type ∧ new_no_type ≠ [] then (100 : ℚ) else 0)
        * (1 / 5))

/-- C2: on the pair ("the", "and") both normalized names are empty (both are
stop words), `max(len(new_words), len(existing_words))` is 0, and the
word-overlap division raises `ZeroDivisionError`: the scorer crashes instead
of treating the overlap as 0 and returning a score. -/
theorem score_crashes_on_stopword_pair :
    calculate_similarity_score "the" "and" = none := by
  with_unfolding_all decide

/-! ## Symmetry of the scorer -/

theorem filter_mem_comm {A B : List String} (sA : A.Sorted strLe) (nA : A.Nodup)
    (sB : B.Sorted strLe) (nB : B.Nodup) :
    A.filter (fun w => decide (w ∈ B)) = B.filter (fun w => decide (w ∈ A)) := by
  apply canon_eq (sA.filter _) (sB.filter _) (nA.filter _) (nB.filter _)
  intro x
  simp only [List.mem_filter, decide_eq_true_eq]
  exact and_comm

theorem lcsFuel_comm : ∀ (fuel : Nat) (l1 l2 : List Char),
    lcsFuel fuel l1 l2 = lcsFuel fuel l2 l1 := by
  intro fuel
  induction fuel with
  | zero => intro l1 l2; cases l1 <;> cases l2 <;> rfl
  | succ n ih =>
    intro l1 l2
    cases l1 with
    | nil => cases l2 <;> rfl
    | cons a as =>
      cases l2 with
      | nil => rfl
      | cons b bs =>
        show (if a = b then lcsFuel n as bs + 1
            else max (lcsFuel n as (b :: bs)) (lcsFuel n (a :: as) bs)) =
          (if b = a then lcsFuel n bs as + 1
            else max (lcsFuel n bs (a :: as)) (lcsFuel n (b :: bs) as))
        by_cases hab : a = b
        · subst hab
          rw [if_pos rfl, if_pos rfl, ih as bs]
        · rw [if_neg hab, if_neg (Ne.symm hab), ih as (b :: bs), ih (a :: as) bs]
          exact Nat.max_comm _ _

theorem indelDist_comm (l1 l2 : List Char) : indelDist l1 l2 = indelDist l2 l1 := by
  unfold indelDist lcsLen
  rw [lcsFuel_comm (l1.length + l2.length) l1 l2, Nat.add_comm l1.length l2.length]

theorem tsrMain_comm (s x y : List Char) : tsrMain s x y = tsrMain s y x := by
  by_cases hs : s.length = 0
  · simp only [tsrMain, hs, if_pos rfl, if_true]
    rw [indelDist_comm x y, Nat.add_comm (0 + 0 + x.length) (0 + 0 + y.length)]
  · simp only [tsrMain, if_neg hs]
    rw [indelDist_comm x y,
      Nat.add_comm (s.length + 1 + x.length) (s.length + 1 + y.length),
      max_comm (normSim (1 + x.length) (s.length + (s.length + 1 + x.length)))
        (normSim (1 + y.length) (s.length + (s.length + 1 + y.length)))]

theorem tsrCore_comm {A B : List String} (sA : A.Sorted strLe) (nA : A.Nodup)
    (sB : B.Sorted strLe) (nB : B.Nodup) : tsrCore A B = tsrCore B A := by
  simp only [tsrCore]
  by_cases h1 : A = [] ∨ B = []
  · rw [if_pos h1, if_pos (Or.symm h1)]
  · rw [if_neg h1, if_neg (fun h => h1 (Or.symm h))]
    rw [filter_mem_comm sA nA sB nB]
    apply if_congr (and_congr Iff.rfl or_comm) rfl
    exact tsrMain_comm _ _ _

theorem fuzzTokenSet_comm (s1 s2 : String) :
    fuzzTokenSet s1 s2 = fuzzTokenSet s2 s1 := by
  unfold fuzzTokenSet
  rw [tsrCore_comm (pySet_sorted _) (pySet_nodup _) (pySet_sorted _) (pySet_nodup _)]

/-- C6: the composite similarity score is symmetric in its two arguments,
including its failure behaviour (it crashes on (a, b) exactly when it crashes
on (b, a)). -/
theorem calculate_similarity_score_comm (a b : String) :
    calculate_similarity_score a b = calculate_similarity_score b a := by
  simp only [calculate_similarity_score]
  rw [Nat.max_comm (pySet (pySplitWords (normalize_vendor_name a))).length
    (pySet (pySplitWords (normalize_vendor_name b))).length]
  rw [fuzzTokenSet_comm]
  rw [filter_mem_comm (pySet_sorted _) (pySet_nodup _) (pySet_sorted _)
    (pySet_nodup _)]
  have hbonus :
        ((pySet (pySplitWords (normalize_vendor_name a))).filter
            (fun w => !(decide (w ∈ store_types))) =
          (pySet (pySplitWords (normalize_vendor_name b))).filter
            (fun w => !(decide (w ∈ store_types))) ∧
          (pySet (pySplitWords (normalize_vendor_name a))).filter
            (fun w => !(decide (w ∈ store_types))) ≠ []) ↔
        ((pySet (pySplitWords (normalize_vendor_name b))).filter
            (fun w => !(decide (w ∈ store_types))) =
          (pySet (pySplitWords (normalize_vendor_name a))).filter
            (fun w => !(decide (w ∈ store_types))) ∧
          (pySet (pySplitWords (normalize_vendor_name b))).filter
            (fun w => !(decide (w ∈ store_types))) ≠ []) := by
    constructor <;> rintro ⟨h1, h2⟩ <;> exact ⟨h1.symm, h1 ▸ h2⟩
  rw [if_congr hbonus rfl rfl]

/-! ## Semantic Arbitrator and Vendor Resolver -/

/-- Outcome of one external OpenAI chat-completion call: the reply text, or an
exception (timeout, network failure, malformed response object). -/
inductive JudgeResult where
  | ok (text : String)
  | err
deriving DecidableEq

/-- The external semantic judge (the OpenAI collaborator) as a parameter. -/
abbrev Judge := String → String → JudgeResult

/-- The arbitration cache `VendorMatcher.similarity_cache`, a dict from the
string cache key to the boolean verdict (newest binding first). -/
abbrev SimCache := List (String × Bool)

/-- `VendorMatcher.verify_with_openai` (source lines 78-113): issue one
request and parse `response.choices[0].message.content.strip().lower() ==
'true'`; every exception is caught and turned into `False`. -/
def verify_with_openai (judge : Judge) (new_vendor existing_vendor : String) : Bool :=
  match judge new_vendor existing_vendor with
  | .ok text => String.mk ((pyStrip text.toList).map Char.toLower) == "true"
  | .err => false

/-- The arbitration step inlined in `find_matching_vendor` (source lines
143-163): build the cache key `f"{new_vendor}|||{best_name}"`; on a hit return
the cached verdict without any external call; on a miss call the judge once
and store the resulting verdict unconditionally.  Returns the verdict, the
updated cache and the number of external calls made. -/
def arbitrate (judge : Judge) (candidate existing : String) (cache : SimCache) :
    Bool × SimCache × Nat :=
  let cache_key := candidate ++ "|||" ++ existing
  match cache.lookup cache_key with
  | some v => (v, cache, 0)
  | none =>
    let is_similar := verify_with_openai judge candidate existing
    (is_similar, (cache_key, is_similar) :: cache, 1)

/-- The `(id, name)` projection of a vendor row, all the resolver reads. -/
structure Vendor where
  id : String
  name : String
deriving DecidableEq

/-- The best-match loop of `find_matching_vendor` (source lines 123-132):
`best_match, best_score = None, 0`, strictly improving scores win (first seen
wins ties); a scorer crash propagates as `none`. -/
def bestLoop (new_vendor : String) (vendors : List Vendor) :
    Option (Option Vendor × ℚ) :=
  vendors.foldl (fun acc v =>
    match acc with
    | none => none
    | some (bm, bs) =>
      match calculate_similarity_score new_vendor v.name with
      | none => none
      | some s => some (if s > bs then (some v, s) else (bm, bs)))
    (some (none, 0))

/-- `VendorMatcher.find_matching_vendor` (source lines 115-166): `none` models
a propagated scorer exception; otherwise returns the optional matched vendor,
the updated arbitration cache and the number of external judge calls. -/
def find_matching_vendor (judge : Judge) (new_vendor : String)
    (existing_vendors : List Vendor) (cache : SimCache) :
    Option (Option Vendor × SimCache × Nat) :=
  match bestLoop new_vendor existing_vendors with
  | none => none
  | some (none, _) => some (none, cache, 0)
  | some (some best_match, best_score) =>
    if best_score > 80 then some (some best_match, cache, 0)
    else if 65 ≤ best_score ∧ best_score ≤ 80 then
      let r := arbitrate judge new_vendor best_match.name cache
      some ((if r.1 then some best_match else none), r.2.1, r.2.2)
    else some (none, cache, 0)

/-- Result of `DatabaseService._get_vendor_id`: an existing vendor id, a newly
inserted vendor, the empty-name rejection, or a propagated scorer exception.
The matched/created outcomes carry the final arbitration cache and the number
of external judge calls. -/
inductive ResolveResult where
  | matched (id : String) (cache : SimCache) (calls : Nat)
  | created (v : Vendor) (cache : SimCache) (calls : Nat)
  | errEmptyName
  | crash
deriving DecidableEq

/-- `DatabaseService._get_vendor_id` (source lines 188-237): reject the name
if `not vendor_name` (true only for the empty string); if the fetched vendor
list is non-empty look for a match and return its id; otherwise insert a new
vendor row carrying the raw candidate name (`new_id` models the id the store
generates; the `created_at` timestamp is outside the model). -/
def resolve_vendor (judge : Judge) (new_id vendor_name : String)
    (existing_vendors : List Vendor) (cache : SimCache) : ResolveResult :=
  if vendor_name = "" then .errEmptyName
  else
    match (if existing_vendors.isEmpty then some (none, cache, 0)
      else find_matching_vendor judge vendor_name existing_vendors cache) with
    | none => .crash
    | some (some m, c, n) => .matched m.id c n
    | some (none, c, n) => .created ⟨new_id, vendor_name⟩ c n

/-- A judge stub whose external call always fails. -/
def errJudge : Judge := fun _ _ => .err

/-- A judge stub that always answers the text "true". -/
def trueJudge : Judge := fun _ _ => .ok "true"

/-- C1 counterexample: with a failing judge and an empty cache, arbitrating
("a", "b") returns the verdict false but DOES write the entry
("a|||b", false) to the cache — the failure is cached, contradicting the
claim that nothing is written on an external-call failure. -/
theorem arbitrate_error_caches_false :
    arbitrate errJudge "a" "b" [] = (false, [("a|||b", false)], 1) ∧
    (arbitrate errJudge "a" "b" []).2.1 ≠ ([] : SimCache) := by
  constructor
  · with_unfolding_all decide
  · with_unfolding_all decide

/-- C1 amended: on a cache miss `arbitrate` always performs exactly one
external call and always writes the parsed verdict to the cache — including
the conservative verdict `false` produced when the external call fails. -/
theorem arbitrate_miss_always_caches (judge : Judge) (a b : String)
    (cache : SimCache) (h : cache.lookup (a ++ "|||" ++ b) = none) :
    arbitrate judge a b cache =
      (verify_with_openai judge a b,
        (a ++ "|||" ++ b, verify_with_openai judge a b) :: cache, 1) ∧
    (judge a b = .err → verify_with_openai judge a b = false) := by
  constructor
  · simp only [arbitrate]
    rw [h]
  · intro he
    unfold verify_with_openai
    rw [he]

theorem arbitrate_miss_always_caches_witness :
    ([] : SimCache).lookup ("x" ++ "|||" ++ "y") = none ∧
    (arbitrate errJudge "x" "y" [] =
      (verify_with_openai errJudge "x" "y",
        ("x" ++ "|||" ++ "y", verify_with_openai errJudge "x" "y") :: [], 1) ∧
    (errJudge "x" "y" = .err → verify_with_openai errJudge "x" "y" = false)) :=
  ⟨rfl, arbitrate_miss_always_caches errJudge "x" "y" [] rfl⟩

/-- C4: when the ordered pair's key is already in the cache, arbitration
returns the cached verdict, leaves the cache unchanged and makes zero
external judge calls. -/
theorem arbitrate_cache_hit (judge : Judge) (a b : String) (cache : SimCache)
    (v : Bool) (h : cache.lookup (a ++ "|||" ++ b) = some v) :
    arbitrate judge a b cache = (v, cache, 0) := by
  simp only [arbitrate]
  rw [h]

/-- C4 witness: a first arbitration with a judge answering "true" caches the
verdict; a second arbitration of the same pair with a judge that now errors
still returns `true` from the cache with zero external calls. -/
theorem arbitrate_cache_hit_witness :
    arbitrate trueJudge "a" "b" [] = (true, [("a|||b", true)], 1) ∧
    arbitrate errJudge "a" "b" [("a|||b", true)] = (true, [("a|||b", true)], 0) :=
  ⟨by with_unfolding_all decide,
    arbitrate_cache_hit errJudge "a" "b" [("a|||b", true)] true (by decide)⟩

/-- C8 counterexample: the whitespace-only candidate " " is blank but is NOT
rejected: `if not vendor_name` is false on " ", so resolution proceeds and
creates a vendor named " ". -/
theorem resolve_vendor_whitespace_not_rejected :
    resolve_vendor errJudge "nid" " " [] [] =
      ResolveResult.created ⟨"nid", " "⟩ [] 0 ∧
    resolve_vendor errJudge "nid" " " [] [] ≠ ResolveResult.errEmptyName := by
  constructor
  · with_unfolding_all decide
  · with_unfolding_all decide

/-- C8 amended: vendor resolution fails with the empty-name rejection exactly
when the candidate is the empty string (whitespace-only names are not
rejected); when it fails this way, nothing else has happened (no matching, no
creation, no cache change, no external call). -/
theorem resolve_vendor_empty_name_iff (judge : Judge) (new_id vendor_name : String)
    (vendors : List Vendor) (cache : SimCache) :
    resolve_vendor judge new_id vendor_name vendors cache =
      ResolveResult.errEmptyName ↔ vendor_name = "" := by
  constructor
  · intro h
    by_contra hne
    unfold resolve_vendor at h
    rw [if_neg hne] at h
    rcases hm : (if vendors.isEmpty then some (none, cache, 0)
        else find_matching_vendor judge vendor_name vendors cache) with _ | ⟨obm, c, n⟩
    · rw [hm] at h
      simp at h
    · rw [hm] at h
      cases obm <;> simp at h
  · intro h
    unfold resolve_vendor
    rw [if_pos h]

/-- C10: the cache key is plain string concatenation with separator "|||", so
the distinct ordered pairs ("market|", "||market") and ("market||", "|market")
share the key "market||||||market".  Both pairs score exactly 80 (in the
arbitration band): resolving the first caches verdict true after one judge
call; resolving the second returns that cached verdict with zero external
calls even though its judge errors. -/
theorem cache_key_collision_shares_entry :
    (("market|", "||market") ≠ ("market||", "|market")) ∧
    find_matching_vendor trueJudge "market|" [⟨"1", "||market"⟩] [] =
      some (some ⟨"1", "||market"⟩, [("market||||||market", true)], 1) ∧
    find_matching_vendor errJudge "market||" [⟨"2", "|market"⟩]
        [("market||||||market", true)] =
      some (some ⟨"2", "|market"⟩, [("market||||||market", true)], 0) := by
  refine ⟨by decide, ?_, ?_⟩ <;> with_unfolding_all decide

/-- C3: the resolver decision is governed by the best score with exact
boundaries — strictly above 80 the best vendor is returned directly with zero
judge calls and an untouched cache; in the closed band [65, 80] (both
endpoints included) the outcome is exactly the arbitration outcome, with
exactly one external call when the pair is not cached; strictly below 65 a
new vendor is created with zero judge calls and no arbitration. -/
theorem resolve_vendor_thresholds (judge : Judge) (new_id nv : String)
    (vendors : List Vendor) (cache : SimCache) (bm : Vendor) (s : ℚ)
    (hnv : nv ≠ "")
    (hbl : bestLoop nv vendors = some (some bm, s)) :
    (s > 80 →
      resolve_vendor judge new_id nv vendors cache =
        ResolveResult.matched bm.id cache 0) ∧
    (65 ≤ s → s ≤ 80 →
      (resolve_vendor judge new_id nv vendors cache =
        (if (arbitrate judge nv bm.name cache).1
          then ResolveResult.matched bm.id (arbitrate judge nv bm.name cache).2.1
            (arbitrate judge nv bm.name cache).2.2
          else ResolveResult.created ⟨new_id, nv⟩
            (arbitrate judge nv bm.name cache).2.1
            (arbitrate judge nv bm.name cache).2.2)) ∧
      (cache.lookup (nv ++ "|||" ++ bm.name) = none →
        (arbitrate judge nv bm.name cache).2.2 = 1)) ∧
    (s < 65 →
      resolve_vendor judge new_id nv vendors cache =
        ResolveResult.created ⟨new_id, nv⟩ cache 0) := by
  have hne : vendors.isEmpty = false := by
    cases vendors with
    | nil => simp [bestLoop] at hbl
    | cons v vs => rfl
  have hres : resolve_vendor judge new_id nv vendors cache =
      match find_matching_vendor judge nv vendors cache with
      | none => ResolveResult.crash
      | some (some m, c, n) => ResolveResult.matched m.id c n
      | some (none, c, n) => ResolveResult.created ⟨new_id, nv⟩ c n := by
    unfold resolve_vendor
    rw [if_neg hnv, hne]
    simp
  have hfind : find_matching_vendor judge nv vendors cache =
      (if s > 80 then some (some bm, cache, 0)
      else if 65 ≤ s ∧ s ≤ 80 then
        some ((if (arbitrate judge nv bm.name cache).1 then some bm else none),
          (arbitrate judge nv bm.name cache).2.1,
          (arbitrate judge nv bm.name cache).2.2)
      else some (none, cache, 0)) := by
    unfold find_matching_vendor
    rw [hbl]
  refine ⟨?_, ?_, ?_⟩
  · intro hgt
    rw [hres, hfind, if_pos hgt]
  · intro h65 h80
    constructor
    · rw [hres, hfind, if_neg (not_lt.mpr h80), if_pos ⟨h65, h80⟩]
      by_cases hr : (arbitrate judge nv bm.name cache).1
      · rw [if_pos hr, if_pos hr]
      · rw [if_neg hr, if_neg hr]
    · intro hmiss
      simp only [arbitrate]
      rw [hmiss]
  · intro hlt
    have h1 : ¬ s > 80 := by
      intro hc
      exact absurd hlt (not_lt.mpr (by linarith))
    have h2 : ¬ (65 ≤ s ∧ s ≤ 80) := fun hc => absurd hlt (not_lt.mpr hc.1)
    rw [hres, hfind, if_neg h1, if_neg h2]

/-- C3 witness: the pair ("market|", "||market") scores exactly 80 (both
token sets are the single token "market", no store-variation bonus), which
lies in the arbitration band; the theorem is instantiated there. -/
theorem resolve_vendor_thresholds_witness :
    ("market|" : String) ≠ "" ∧
    bestLoop "market|" [⟨"1", "||market"⟩] = some (some ⟨"1", "||market"⟩, 80) ∧
    (((80 : ℚ) > 80 →
      resolve_vendor trueJudge "nid" "market|" [⟨"1", "||market"⟩] [] =
        ResolveResult.matched (Vendor.mk "1" "||market").id [] 0) ∧
    ((65 : ℚ) ≤ 80 → (80 : ℚ) ≤ 80 →
      (resolve_vendor trueJudge "nid" "market|" [⟨"1", "||market"⟩] [] =
        (if (arbitrate trueJudge "market|" (Vendor.mk "1" "||market").name []).1
          then ResolveResult.matched (Vendor.mk "1" "||market").id
            (arbitrate trueJudge "market|" (Vendor.mk "1" "||market").name []).2.1
            (arbitrate trueJudge "market|" (Vendor.mk "1" "||market").name []).2.2
          else ResolveResult.created ⟨"nid", "market|"⟩
            (arbitrate trueJudge "market|" (Vendor.mk "1" "||market").name []).2.1
            (arbitrate trueJudge "market|" (Vendor.mk "1" "||market").name []).2.2)) ∧
      (([] : SimCache).lookup ("market|" ++ "|||" ++ (Vendor.mk "1" "||market").name) = none →
        (arbitrate trueJudge "market|" (Vendor.mk "1" "||market").name []).2.2 = 1)) ∧
    ((80 : ℚ) < 65 →
      resolve_vendor trueJudge "nid" "market|" [⟨"1", "||market"⟩] [] =
        ResolveResult.created ⟨"nid", "market|"⟩ [] 0)) :=
  ⟨by decide, by with_unfolding_all decide,
    resolve_vendor_thresholds trueJudge "nid" "market|" [⟨"1", "||market"⟩] []
      ⟨"1", "||market"⟩ 80 (by decide) (by with_unfolding_all decide)⟩

/-! ## Transaction storage — `DatabaseService.store_transaction` -/

/-- A JSON-ish field value of the parsed receipt payload: a string or a
number. -/
inductive Value where
  | str (s : String)
  | num (q : ℚ)
deriving DecidableEq

/-- Digits of a decimal literal to a natural number. -/
def digitsToNat (l : List Char) : Nat :=
  l.foldl (fun a c => a * 10 + (c.toNat - 48)) 0

/-- Python `float(s)` on a plain decimal string literal (optional sign,
digits, optional fractional part); exponents, infinities and NaN are outside
the model.  `none` models the `ValueError` raised on unparsable input. -/
def pyFloat (s : String) : Option ℚ :=
  let t := pyStrip s.toList
  let signRest : ℚ × List Char :=
    match t with
    | '-' :: r => (-1, r)
    | '+' :: r => (1, r)
    | r => (1, r)
  let intPart := signRest.2.takeWhile Char.isDigit
  let rest2 := signRest.2.dropWhile Char.isDigit
  match rest2 with
  | [] => if intPart.isEmpty then none else some (signRest.1 * digitsToNat intPart)
  | '.' :: frac =>
    if frac.all Char.isDigit ∧ (intPart ≠ [] ∨ frac ≠ []) then
      some (signRest.1 * ((digitsToNat intPart : ℚ) +
        (digitsToNat frac : ℚ) / ((10 : ℚ) ^ frac.length)))
    else none
  | _ => none

/-- The string form of a field value (vendor and sector fields are strings in
practice; a numeric value is rendered with its decimal representation). -/
def valueStr : Value → String
  | .str s => s
  | .num q => toString q

/-- Python `float(x)` on a payload value: numbers pass through, strings are
parsed with `pyFloat`; `none` models the raised `ValueError`. -/
def coerceFloat : Value → Option ℚ
  | .num q => some q
  | .str s => pyFloat s

/-- `DatabaseService.get_category_id` (source lines 239-266): exact name
match, then case-insensitive match (`ilike` with no wildcard), then the fixed
fallback category named "Uncategorized"; error when even the fallback row is
absent.  The category store is the list of `(name, id)` rows. -/
def get_category_id (categories : List (String × String))
    (category_name : String) : Except Unit String :=
  match categories.find? (fun c => c.1 == category_name) with
  | some c => Except.ok c.2
  | none =>
    match categories.find? (fun c =>
        String.mk (c.1.toList.map Char.toLower) ==
          String.mk (category_name.toList.map Char.toLower)) with
    | some c => Except.ok c.2
    | none =>
      match categories.find? (fun c => c.1 == "Uncategorized") with
      | some c => Except.ok c.2
      | none => Except.error ()

/-- The transaction row assembled by `store_transaction` (source lines
287-297); `raw_data`, `receipt_url` and the `created_at` timestamp are
outside the model). -/
structure Txn where
  user_id : String
  vendor_id : String
  category_id : String
  date : Value
  currency : Value
  total_amount : ℚ
deriving DecidableEq

/-- The relational store as read and written by the pipeline: the vendors
table and the transactions table. -/
structure DBState where
  vendors : List Vendor
  transactions : List Txn
deriving DecidableEq

/-- The failure modes of `store_transaction`, mirroring the raised
`ValueError`s and propagated exceptions of the source. -/
inductive StoreErr where
  | missingFields (fields : List String)
  | emptyVendorName
  | scoreCrash
  | noUncategorized
  | badTotal
deriving DecidableEq

/-- The required field names, in source order (source line 275). -/
def required_fields : List String := ["vendor", "date", "total", "sector", "currency"]

/-- The missing-field list computed on source line 276, in `required_fields`
order. -/
def requiredMissing (data : List (String × Value)) : List String :=
  required_fields.filter (fun f => (data.lookup f).isNone)

/-- Field access on the payload dict (only reached for present fields). -/
def getField (data : List (String × Value)) (f : String) : Value :=
  (data.lookup f).getD (Value.str "")

/-- The tail of `store_transaction` after the vendor id is known: category
lookup, amount coercion, transaction insert.  Carries the database state as it
stands after vendor resolution — an error here leaves that state behind. -/
def store_transaction_after_vendor (user_id : String)
    (data : List (String × Value)) (categories : List (String × String))
    (vendor_id : String) (db : DBState) (calls : Nat) :
    Except StoreErr Txn × DBState × Nat :=
  match get_category_id categories (valueStr (getField data "sector")) with
  | Except.error _ => (Except.error StoreErr.noUncategorized, db, calls)
  | Except.ok category_id =>
    match coerceFloat (getField data "total") with
    | none => (Except.error StoreErr.badTotal, db, calls)
    | some amt =>
      let txn : Txn := ⟨user_id, vendor_id, category_id,
        getField data "date", getField data "currency", amt⟩
      (Except.ok txn, ⟨db.vendors, db.transactions ++ [txn]⟩, calls)

/-- `DatabaseService.store_transaction` (source lines 268-310): validate the
five required fields first; then resolve the vendor (which may insert a new
vendor row); then resolve the category; then coerce the amount; then insert
the transaction row.  Returns the result, the final database state, and the
number of external judge calls. -/
def store_transaction (judge : Judge) (new_vendor_id user_id : String)
    (transaction_data : List (String × Value))
    (categories : List (String × String)) (db : DBState) (cache : SimCache) :
    Except StoreErr Txn × DBState × Nat :=
  if requiredMissing transaction_data ≠ [] then
    (Except.error (StoreErr.missingFields (requiredMissing transaction_data)), db, 0)
  else
    match resolve_vendor judge new_vendor_id
        (valueStr (getField transaction_data "vendor")) db.vendors cache with
    | ResolveResult.errEmptyName => (Except.error StoreErr.emptyVendorName, db, 0)
    | ResolveResult.crash => (Except.error StoreErr.scoreCrash, db, 0)
    | ResolveResult.matched vid _ n =>
      store_transaction_after_vendor user_id transaction_data categories vid db n
    | ResolveResult.created v _ n =>
      store_transaction_after_vendor user_id transaction_data categories v.id
        ⟨db.vendors ++ [v], db.transactions⟩ n

/-- C7: when any required field is absent, `store_transaction` fails
immediately with exactly the list of absent field names, the database state
is untouched and no external call is made — for every judge, vendor set and
category store, so neither vendor resolution nor storage can have acted. -/
theorem store_transaction_missing_fields (judge : Judge)
    (new_vendor_id user_id : String) (data : List (String × Value))
    (categories : List (String × String)) (db : DBState) (cache : SimCache)
    (h : requiredMissing data ≠ []) :
    store_transaction judge new_vendor_id user_id data categories db cache =
      (Except.error (StoreErr.missingFields (requiredMissing data)), db, 0) := by
  unfold store_transaction
  rw [if_pos h]

/-- Sample payload with every required field except "currency". -/
def sampleDataNoCurrency : List (String × Value) :=
  [("vendor", Value.str "V"), ("date", Value.str "2024-01-01"),
   ("total", Value.num 5), ("sector", Value.str "Food")]

/-- C7 witness: missing only "currency" yields exactly the list
["currency"]. -/
theorem store_transaction_missing_fields_witness :
    requiredMissing sampleDataNoCurrency = ["currency"] ∧
    store_transaction errJudge "nv1" "u1" sampleDataNoCurrency [] ⟨[], []⟩ [] =
      (Except.error (StoreErr.missingFields (requiredMissing sampleDataNoCurrency)),
        (⟨[], []⟩ : DBState), 0) :=
  ⟨by decide,
    store_transaction_missing_fields errJudge "nv1" "u1" sampleDataNoCurrency []
      ⟨[], []⟩ [] (by decide)⟩

/-- C9: on an otherwise complete payload, when vendor resolution created a new
vendor and then either the fallback category is absent or the amount cannot
be coerced, `store_transaction` fails — but the newly created vendor row
remains in the final state while no transaction row is ever inserted. -/
theorem store_transaction_fails_after_vendor_creation (judge : Judge)
    (new_vendor_id user_id : String) (data : List (String × Value))
    (categories : List (String × String)) (db : DBState) (cache : SimCache)
    (v : Vendor) (c : SimCache) (n : Nat)
    (hmiss : requiredMissing data = [])
    (hres : resolve_vendor judge new_vendor_id
      (valueStr (getField data "vendor")) db.vendors cache =
        ResolveResult.created v c n)
    (hfail : get_category_id categories (valueStr (getField data "sector")) =
        Except.error () ∨ coerceFloat (getField data "total") = none) :
    ∃ e, (e = StoreErr.noUncategorized ∨ e = StoreErr.badTotal) ∧
      store_transaction judge new_vendor_id user_id data categories db cache =
        (Except.error e, ⟨db.vendors ++ [v], db.transactions⟩, n) := by
  unfold store_transaction
  rw [if_neg (fun hc => hc hmiss), hres]
  unfold store_transaction_after_vendor
  rcases hfail with hcat | htot
  · rw [hcat]
    exact ⟨StoreErr.noUncategorized, Or.inl rfl, rfl⟩
  · rcases hc2 : get_category_id categories (valueStr (getField data "sector"))
      with u | cid
    · exact ⟨StoreErr.noUncategorized, Or.inl rfl, rfl⟩
    · rw [htot]
      exact ⟨StoreErr.badTotal, Or.inr rfl, rfl⟩

/-- Sample payload whose "total" cannot be coerced to a float. -/
def sampleDataBadTotal : List (String × Value) :=
  [("vendor", Value.str "V"), ("date", Value.str "2024-01-01"),
   ("total", Value.str "abc"), ("sector", Value.str "Food"),
   ("currency", Value.str "USD")]

/-- C9 witness: complete payload, empty vendor table (so a vendor is
created), "Uncategorized" present, total "abc" — storage fails on the amount
but the created vendor row persists and no transaction is stored. -/
theorem store_transaction_fails_after_vendor_creation_witness :
    requiredMissing sampleDataBadTotal = [] ∧
    resolve_vendor errJudge "nv1" (valueStr (getField sampleDataBadTotal "vendor"))
      (([] : List Vendor)) [] = ResolveResult.created ⟨"nv1", "V"⟩ [] 0 ∧
    coerceFloat (getField sampleDataBadTotal "total") = none ∧
    (∃ e, (e = StoreErr.noUncategorized ∨ e = StoreErr.badTotal) ∧
      store_transaction errJudge "nv1" "u1" sampleDataBadTotal
          [("Uncategorized", "u1")] ⟨[], []⟩ [] =
        (Except.error e, ⟨[] ++ [⟨"nv1", "V"⟩], []⟩, 0)) :=
  ⟨by decide, by decide, by decide,
    store_transaction_fails_after_vendor_creation errJudge "nv1" "u1"
      sampleDataBadTotal [("Uncategorized", "u1")] ⟨[], []⟩ [] ⟨"nv1", "V"⟩ [] 0
      (by decide) (by decide) (Or.inr (by decide))⟩
